import Mathlib

/-!
Verification development for the concurrent-execution core of the
`go-command-pipeline` library: the fan-out / worker-pool step, its work
supplier, per-task result table, result collection and
cancellation-error composition.

The Go source is shallowly embedded:
  * Go `error` values become an inductive `GoError` recording the message
    and the (optional) cause recorded by the `%w` verb of `fmt.Errorf`;
    a nilable error is `Option GoError`.
  * `context.Context` is reduced to the one observable the core reads:
    `ctx.Err()`, i.e. an `Option GoError` that is `some` once the
    cancellation signal has fired.
  * `Result` mirrors the `Result` struct of `result.go`
    (fields `err`, `name`, `aborted`, `canceled`).
  * The `sync.Map` result table becomes an association list
    `List (Nat × Result)`; the handler receives the extensional view
    `Nat → Option Result` of that table, mirroring the conversion to an
    ordinary Go map (whose iteration order is unobservable).
  * Go `uint64` indices become `Nat`: the index counter counts dequeued
    items of an in-memory list, so the 2^64 wrap is unreachable.
-/

namespace CP

/-- Go `error` values: a leaf error (e.g. from `errors.New`) or an error
produced by `fmt.Errorf` with a `%w` verb, which has its own formatted
message and wraps exactly one cause. -/
inductive GoError where
  | leaf : String → GoError
  | wrapped : String → GoError → GoError
  deriving DecidableEq

/-- `err.Error()`: the message of a Go error. -/
def GoError.message : GoError → String
  | GoError.leaf m => m
  | GoError.wrapped m _ => m

/-- `errors.Unwrap`: the cause recorded by `%w`, if any. -/
def GoError.unwrap : GoError → Option GoError
  | GoError.leaf _ => none
  | GoError.wrapped _ e => some e

/-- `errors.Is(e, target)`: walks the unwrap chain looking for `target`. -/
def errorsIs : GoError → GoError → Bool
  | GoError.leaf m, target => GoError.leaf m == target
  | GoError.wrapped m inner, target =>
      (GoError.wrapped m inner == target) || errorsIs inner target

/-- `fmt.Errorf("%w, collection error: %v", ctxErr, collErr)` from
`setResultErrorFromContext`: the message interpolates both errors'
messages, but only `ctxErr` (the `%w` operand) is wrapped as a cause;
`collErr` enters as formatted text only. -/
def fmtErrorfWrapColl (ctxErr collErr : GoError) : GoError :=
  GoError.wrapped (ctxErr.message ++ ", collection error: " ++ collErr.message) ctxErr

/-- The slice of `context.Context` the concurrent core reads at return
time: `ctx.Err()`, non-nil exactly when the cancellation signal fired. -/
structure Context where
  err : Option GoError
  deriving DecidableEq

/-- The `Result` struct of `result.go`. -/
structure Result where
  err : Option GoError
  name : String
  aborted : Bool
  canceled : Bool
  deriving DecidableEq

/-- `NewResult` of `result.go`: the constructor for all properties. -/
def NewResult (stepName : String) (err : Option GoError) (aborted canceled : Bool) : Result :=
  ⟨err, stepName, aborted, canceled⟩

/-- The Go zero value `Result{}` used by `collectResults`. -/
def Result.zero : Result := ⟨none, "", false, false⟩

/-- `Result.IsSuccessful` of `result.go`. -/
def Result.IsSuccessful (r : Result) : Bool := r.err.isNone && !r.aborted

/-- `Result.IsFailed` of `result.go`. -/
def Result.IsFailed (r : Result) : Bool := r.err.isSome

/-- A sub-pipeline, seen by the concurrent core as an opaque
"run to completion with this context, give back a Result" callable
(`p.RunWithContext(ctx)`). -/
structure Pipeline where
  runWithContext : Context → Result

/-- The contents of the `sync.Map` result table, keyed by ordinal index. -/
abbrev ResultTable := List (Nat × Result)

/-- Point lookup in the result table (first binding of a key wins; the
executor never stores a key twice, see the no-duplicate-index theorems). -/
def lookupTable (m : ResultTable) (k : Nat) : Option Result :=
  (m.find? (fun kv => kv.1 == k)).map (fun kv => kv.2)

/-- The extensional `map[uint64]Result` view handed to the handler. -/
def tableView (m : ResultTable) : Nat → Option Result := fun k => lookupTable m k

/-- `ParallelResultHandler` of `resulthandler.go`: reduces the index→Result
map to one combined `Result`. -/
abbrev ParallelResultHandler := Context → (Nat → Option Result) → Result

/-- `collectResults` of `resulthandler.go`: with a nil handler the combined
result is the zero `Result{}`; otherwise the sync.Map is converted to an
ordinary map and the handler is applied to it once. -/
def collectResults (ctx : Context) (handler : Option ParallelResultHandler)
    (m : ResultTable) : Result :=
  match handler with
  | none => Result.zero
  | some h => h ctx (tableView m)

/-- `setResultErrorFromContext` of `resulthandler.go`: merges `ctx.Err()`
into the collected result. -/
def setResultErrorFromContext (ctx : Context) (result : Result) : Result :=
  match ctx.err with
  | none => result
  | some cerr =>
    match result.err with
    | some rerr => NewResult result.name (some (fmtErrorfWrapColl cerr rerr)) result.aborted true
    | none => NewResult result.name (some cerr) result.aborted true

/-- `hay` contains `needle` as contiguous text. -/
def containsText (hay needle : String) : Prop := ∃ a b, hay = a ++ needle ++ b

/-- What a supplier leaves behind: the sequence of sub-pipelines it wrote
to the channel, in order, and whether it closed the channel. The supplier
signature offers no error channel, so "stops without error" is the only
way a supplier can end. -/
structure SupplyOutcome where
  emitted : List Pipeline
  closed : Bool

/-- A `Supplier` observed through the channel: given the cancellation
status `fired k` of `ctx.Done()` at its k-th checkpoint, it determines
what got emitted and whether the channel was closed. -/
abbrev Supplier := (Nat → Bool) → SupplyOutcome

/-- The loop body of `SupplierFromSlice`: iterate the slice; before each
write, `select` observes `ctx.Done()` (status `fired k` at the k-th
iteration) and returns early if it fired, otherwise sends the element. -/
def supplyLoop (fired : Nat → Bool) : Nat → List Pipeline → List Pipeline
  | _, [] => []
  | k, p :: ps => if fired k then [] else p :: supplyLoop fired (k + 1) ps

/-- `SupplierFromSlice` of `supplier.go`: iterates the given slice feeding
the channel, checking cancellation before each send; `defer close` closes
the channel on every exit path. -/
def SupplierFromSlice (pipes : List Pipeline) : Supplier :=
  fun fired => ⟨supplyLoop fired 0 pipes, true⟩

/-- A trivial sub-pipeline used in concrete witnesses. -/
def okPipe : Pipeline := ⟨fun _ => Result.zero⟩

/-- A cancellation schedule that fires from the third checkpoint on. -/
def firedAfterTwo : Nat → Bool := fun k => decide (2 ≤ k)

lemma supplyLoop_length_le (fired : Nat → Bool) :
    ∀ (k : Nat) (ps : List Pipeline), (supplyLoop fired k ps).length ≤ ps.length := by
  intro k ps
  induction ps generalizing k with
  | nil => simp [supplyLoop]
  | cons p ps ih =>
    by_cases hf : fired k
    · simp [supplyLoop, hf]
    · simpa [supplyLoop, hf, Nat.succ_le_succ_iff] using ih (k + 1)

lemma supplyLoop_not_fired (fired : Nat → Bool) :
    ∀ (k : Nat) (ps : List Pipeline) (j : Nat), j < (supplyLoop fired k ps).length →
      fired (k + j) = false := by
  intro k ps
  induction ps generalizing k with
  | nil => intro j hj; simp [supplyLoop] at hj
  | cons p ps ih =>
    intro j hj
    by_cases hf : fired k
    · simp [supplyLoop, hf] at hj
    · cases j with
      | zero => simpa using Bool.eq_false_iff.mpr hf
      | succ j =>
        have hj' : j < (supplyLoop fired (k + 1) ps).length := by
          simpa [supplyLoop, hf, Nat.succ_lt_succ_iff] using hj
        have := ih (k + 1) j hj'
        simpa [Nat.add_assoc, Nat.add_comm 1 j] using this

lemma supplyLoop_stop (fired : Nat → Bool) :
    ∀ (k : Nat) (ps : List Pipeline), (supplyLoop fired k ps).length < ps.length →
      fired (k + (supplyLoop fired k ps).length) = true := by
  intro k ps
  induction ps generalizing k with
  | nil => intro h; simp [supplyLoop] at h
  | cons p ps ih =>
    intro h
    by_cases hf : fired k
    · simp [supplyLoop, hf]
    · have h' : (supplyLoop fired (k + 1) ps).length < ps.length := by
        simpa [supplyLoop, hf, Nat.succ_lt_succ_iff] using h
      have := ih (k + 1) h'
      simpa [supplyLoop, hf, Nat.add_assoc, Nat.add_comm 1] using this

lemma supplyLoop_take (fired : Nat → Bool) :
    ∀ (k : Nat) (ps : List Pipeline),
      supplyLoop fired k ps = ps.take (supplyLoop fired k ps).length := by
  intro k ps
  induction ps generalizing k with
  | nil => simp [supplyLoop]
  | cons p ps ih =>
    by_cases hf : fired k
    · simp [supplyLoop, hf]
    · simp [supplyLoop, hf]
      exact ih (k + 1)

/-- C6: `SupplierFromSlice` checks the signal before each write (every
element actually written was written at a checkpoint where the signal had
not fired), stops at the first checkpoint where the signal has fired —
writing nothing at or after it — and closes the channel on every exit
path (exhaustion or early stop), with no error output in its signature. -/
theorem supplierFromSlice_cancellation (pipes : List Pipeline) (fired : Nat → Bool) :
    (SupplierFromSlice pipes fired).closed = true ∧
    (∀ j, j < (SupplierFromSlice pipes fired).emitted.length → fired j = false) ∧
    ((SupplierFromSlice pipes fired).emitted.length < pipes.length →
      fired ((SupplierFromSlice pipes fired).emitted.length) = true) ∧
    (∀ k, fired k = true → (SupplierFromSlice pipes fired).emitted.length ≤ k) ∧
    (SupplierFromSlice pipes fired).emitted =
      pipes.take ((SupplierFromSlice pipes fired).emitted.length) := by
  refine ⟨rfl, ?_, ?_, ?_, ?_⟩
  · intro j hj
    simpa using supplyLoop_not_fired fired 0 pipes j hj
  · intro h
    simpa using supplyLoop_stop fired 0 pipes h
  · intro k hk
    by_contra hlt
    have hj : k < (SupplierFromSlice pipes fired).emitted.length := Nat.lt_of_not_le hlt
    have := supplyLoop_not_fired fired 0 pipes k (by simpa using hj)
    simp only [Nat.zero_add] at this
    rw [this] at hk
    exact Bool.false_ne_true hk
  · exact supplyLoop_take fired 0 pipes

/-- Witness for C6: with four sub-pipelines and the signal firing from the
third checkpoint on, the first checkpoint is clear and the supply stops at
the checkpoint matching the emitted length. -/
theorem supplierFromSlice_cancellation_witness :
    firedAfterTwo 0 = false ∧
    firedAfterTwo ((SupplierFromSlice [okPipe, okPipe, okPipe, okPipe] firedAfterTwo).emitted.length) = true := by
  constructor
  · exact (supplierFromSlice_cancellation [okPipe, okPipe, okPipe, okPipe] firedAfterTwo).2.1 0
      (by simp [SupplierFromSlice, supplyLoop, firedAfterTwo])
  · exact (supplierFromSlice_cancellation [okPipe, okPipe, okPipe, okPipe] firedAfterTwo).2.2.1
      (by simp [SupplierFromSlice, supplyLoop, firedAfterTwo])

/-- C1: the three-case cancellation composition of
`setResultErrorFromContext`: if the signal fired and the collector
returned an error, the returned error is the composite wrapping the
cancellation error with the collection error's text appended (so its text
contains both, separated by the literal ", collection error: "); if the
signal fired and the collector returned no error, the returned error is
exactly the context's error; if the signal did not fire, the collector's
result is returned unchanged. -/
theorem setResultErrorFromContext_cases (ctx : Context) (res : Result) :
    (∀ cerr rerr, ctx.err = some cerr → res.err = some rerr →
      (setResultErrorFromContext ctx res).err = some (fmtErrorfWrapColl cerr rerr) ∧
      containsText (fmtErrorfWrapColl cerr rerr).message cerr.message ∧
      containsText (fmtErrorfWrapColl cerr rerr).message rerr.message) ∧
    (∀ cerr, ctx.err = some cerr → res.err = none →
      (setResultErrorFromContext ctx res).err = some cerr) ∧
    (ctx.err = none → setResultErrorFromContext ctx res = res) := by
  refine ⟨?_, ?_, ?_⟩
  · intro cerr rerr hc hr
    refine ⟨?_, ⟨"", ", collection error: " ++ rerr.message, ?_⟩,
      ⟨cerr.message ++ ", collection error: ", "", ?_⟩⟩
    · simp [setResultErrorFromContext, hc, hr, NewResult]
    · simp [fmtErrorfWrapColl, GoError.message, String.append_assoc]
    · simp [fmtErrorfWrapColl, GoError.message, String.append_assoc]
  · intro cerr hc hr
    simp [setResultErrorFromContext, hc, hr, NewResult]
  · intro hc
    simp [setResultErrorFromContext, hc]

/-- Witness for C1: all three cases at concrete inputs. -/
theorem setResultErrorFromContext_cases_witness :
    (setResultErrorFromContext ⟨some (GoError.leaf "context canceled")⟩
      ⟨some (GoError.leaf "boom"), "n", false, false⟩).err =
      some (fmtErrorfWrapColl (GoError.leaf "context canceled") (GoError.leaf "boom")) :=
  ((setResultErrorFromContext_cases ⟨some (GoError.leaf "context canceled")⟩
    ⟨some (GoError.leaf "boom"), "n", false, false⟩).1
    (GoError.leaf "context canceled") (GoError.leaf "boom") rfl rfl).1

/-- C3: with a nil `ParallelResultHandler`, `collectResults` yields the
zero `Result{}` — no error and a successful result — whatever the result
table contains. -/
theorem collectResults_nil_handler (ctx : Context) (m : ResultTable) :
    (collectResults ctx none m).err = none ∧
    (collectResults ctx none m).IsSuccessful = true := by
  constructor <;> rfl
/-! ## The executor skeleton shared by `NewFanOutStep` and `NewWorkerPoolStep`

Both steps read sub-pipelines off the channel, hand each one an ordinal
index, run it in its own task, store `(index, RunWithContext(ctx))` into
the shared `sync.Map`, wait for all tasks (`wg.Wait()`), and only then
collect.  The interleaving of the tasks is modelled by a step relation
over an explicit state; a schedule (list of events) picks one
interleaving.  The two variants dequeue differently:
  * fan-out (`bound = none`): the step's single main loop is the only
    reader; it reads the next pipeline, binds `n := i; i++` and spawns,
    so the read and the index assignment cannot interleave with another
    read — they form one `deq` event — and parallelism is unbounded;
  * pool (`bound = some size`): each of the `size` workers of `poolWork`
    performs the channel receive and the `atomic.AddUint64(i, 1) - 1`
    index claim as two separate, unsynchronized operations.  A worker
    that has received (`recv`) holds its pipeline until its `claim`
    event fires, and another worker's claim may slip in between, so
    index order can diverge from dequeue order.
The counter is `Nat`: each increment corresponds to one dequeued element
of an in-memory list, so the `uint64` wrap-around is unreachable. -/

/-- State of one executor invocation: channel contents not yet received,
the shared index counter, pipelines received by a pool worker whose index
claim is still pending, the spawned-but-unfinished indexed tasks, and the
`sync.Map` contents. -/
structure ExecState where
  remaining : List Pipeline
  counter : Nat
  received : List Pipeline
  inFlight : List (Nat × Pipeline)
  table : ResultTable

/-- Initial state: the supplier's emitted sequence queued, nothing spawned. -/
def initState (emitted : List Pipeline) : ExecState := ⟨emitted, 0, [], [], []⟩

/-- One scheduler event: `deq` is the fan-out loop's fused read-and-assign
(single reader); `recv` is a pool worker's channel receive; `claim j` is
the atomic counter claim by the worker holding the `j`-th received
pipeline; `fin j` is completion of the in-flight task at position `j`. -/
inductive ExecEvent where
  | deq : ExecEvent
  | recv : ExecEvent
  | claim : Nat → ExecEvent
  | fin : Nat → ExecEvent

/-- One transition of the executor machine. `none` means the event is not
enabled in this state (or does not belong to this variant). -/
def execStep (ctx : Context) (bound : Option Nat) :
    ExecEvent → ExecState → Option ExecState
  | ExecEvent.deq, s =>
    match bound with
    | some _ => none
    | none =>
      match s.remaining with
      | [] => none
      | p :: rest =>
        some ⟨rest, s.counter + 1, s.received, s.inFlight ++ [(s.counter, p)], s.table⟩
  | ExecEvent.recv, s =>
    match bound with
    | none => none
    | some size =>
      match s.remaining with
      | [] => none
      | p :: rest =>
        if s.received.length + s.inFlight.length < size then
          some ⟨rest, s.counter, s.received ++ [p], s.inFlight, s.table⟩
        else none
  | ExecEvent.claim j, s =>
    match bound with
    | none => none
    | some _ =>
      match s.received[j]? with
      | none => none
      | some p =>
        some ⟨s.remaining, s.counter + 1, s.received.eraseIdx j,
          s.inFlight ++ [(s.counter, p)], s.table⟩
  | ExecEvent.fin j, s =>
    match s.inFlight[j]? with
    | none => none
    | some np => some ⟨s.remaining, s.counter, s.received, s.inFlight.eraseIdx j,
        (np.1, np.2.runWithContext ctx) :: s.table⟩

/-- Run the machine along a schedule. -/
def execRun (ctx : Context) (bound : Option Nat) :
    List ExecEvent → ExecState → Option ExecState
  | [], s => some s
  | e :: es, s =>
    match execStep ctx bound e s with
    | none => none
    | some s2 => execRun ctx bound es s2

/-- `wg.Wait()` has returned: queue drained, no received pipeline still
awaiting its index claim, no task still in flight. -/
def isQuiesced (s : ExecState) : Bool :=
  s.remaining.isEmpty && s.received.isEmpty && s.inFlight.isEmpty

/-- The executor invariant, common to both variants: the queue holds
exactly the not-yet-dequeued suffix, dequeues never exceed the supply,
the indices handed out so far are exactly `0, ..., counter-1` split
between finished records and in-flight tasks, and everything held or
recorded stems from the supplied sequence. -/
def ExecInv (ctx : Context) (emitted : List Pipeline) (s : ExecState) : Prop :=
  s.remaining = emitted.drop (s.counter + s.received.length) ∧
  s.counter + s.received.length ≤ emitted.length ∧
  (s.table.map Prod.fst ++ s.inFlight.map Prod.fst).Perm (List.range s.counter) ∧
  (∀ p, p ∈ s.received → p ∈ emitted) ∧
  (∀ n p, (n, p) ∈ s.inFlight → p ∈ emitted) ∧
  (∀ n r, (n, r) ∈ s.table → ∃ p, p ∈ emitted ∧ r = p.runWithContext ctx)

/-- The extra invariant of the fan-out variant only: its single reading
loop never leaves a receive unclaimed, and index `n` is tied to the
`n`-th element of the emitted sequence. The pool does not satisfy this
(see the C7 counterexample). -/
def FanOutInv (ctx : Context) (emitted : List Pipeline) (s : ExecState) : Prop :=
  s.received = [] ∧
  (∀ n p, (n, p) ∈ s.inFlight → emitted[n]? = some p) ∧
  (∀ n r, (n, r) ∈ s.table → ∃ p, emitted[n]? = some p ∧ r = p.runWithContext ctx)

lemma get_eraseIdx_perm {α : Type} :
    ∀ (j : Nat) (l : List α) (x : α), l[j]? = some x → l.Perm (x :: l.eraseIdx j)
  | _, [], _, h => by simp at h
  | 0, a :: l, x, h => by
      simp only [List.getElem?_cons_zero, Option.some_inj] at h
      subst h
      simp [List.eraseIdx]
  | j + 1, a :: l, x, h => by
      have hh : l[j]? = some x := by simpa using h
      have ih := get_eraseIdx_perm j l x hh
      have h1 : (a :: l).Perm (a :: x :: l.eraseIdx j) := ih.cons a
      have h2 : (a :: x :: l.eraseIdx j).Perm (x :: a :: l.eraseIdx j) := List.Perm.swap x a _
      exact h1.trans h2

lemma drop_succ_of_drop_cons {α : Type} {l : List α} {n : Nat} {x : α} {t : List α}
    (h : l.drop n = x :: t) : l.drop (n + 1) = t := by
  have h2 := congrArg (List.drop 1) h
  simp only [List.drop_drop] at h2
  simpa using h2

lemma keys_append_claim (A B : List Nat) (c : Nat)
    (h : (A ++ B).Perm (List.range c)) :
    (A ++ (B ++ [c])).Perm (List.range (c + 1)) := by
  rw [← List.append_assoc, List.range_succ]
  exact h.append_right [c]

lemma execStep_inv {ctx : Context} {bound : Option Nat} {emitted : List Pipeline}
    {e : ExecEvent} {s s' : ExecState}
    (hinv : ExecInv ctx emitted s) (hstep : execStep ctx bound e s = some s') :
    ExecInv ctx emitted s' := by
  obtain ⟨h1, h2, h3, h4, h5, h6⟩ := hinv
  cases e with
  | deq =>
    cases bound with
    | some size => simp [execStep] at hstep
    | none =>
      cases hrem : s.remaining with
      | nil => simp [execStep, hrem] at hstep
      | cons p rest =>
        simp only [execStep, hrem, Option.some_inj] at hstep
        subst hstep
        have hdropc : emitted.drop (s.counter + s.received.length) = p :: rest := h1 ▸ hrem
        have hlt : s.counter + s.received.length < emitted.length := by
          by_contra hge
          have hnil : emitted.drop (s.counter + s.received.length) = [] :=
            List.drop_eq_nil_iff.mpr (Nat.le_of_not_lt hge)
          rw [hnil] at hdropc
          exact List.noConfusion hdropc
        have hpmem : p ∈ emitted := by
          have hpd : p ∈ emitted.drop (s.counter + s.received.length) := by
            rw [hdropc]
            exact List.mem_cons_self p rest
          exact List.mem_of_mem_drop hpd
        have hd := drop_succ_of_drop_cons hdropc
        have hidx : s.counter + 1 + s.received.length = s.counter + s.received.length + 1 := by
          omega
        refine ⟨by rw [hidx]; exact hd.symm,
          by show s.counter + 1 + s.received.length ≤ emitted.length; omega, ?_, h4, ?_, h6⟩
        · have hmap : (s.inFlight ++ [(s.counter, p)]).map Prod.fst =
              s.inFlight.map Prod.fst ++ [s.counter] := by simp
          rw [hmap]
          exact keys_append_claim _ _ _ h3
        · intro n q hq
          rcases List.mem_append.mp hq with hq | hq
          · exact h5 n q hq
          · have hq2 : n = s.counter ∧ q = p := by simpa using hq
            exact hq2.2 ▸ hpmem
  | recv =>
    cases bound with
    | none => simp [execStep] at hstep
    | some size =>
      cases hrem : s.remaining with
      | nil => simp [execStep, hrem] at hstep
      | cons p rest =>
        simp only [execStep, hrem] at hstep
        by_cases hb : s.received.length + s.inFlight.length < size
        · rw [if_pos hb, Option.some_inj] at hstep
          subst hstep
          have hdropc : emitted.drop (s.counter + s.received.length) = p :: rest := h1 ▸ hrem
          have hlt : s.counter + s.received.length < emitted.length := by
            by_contra hge
            have hnil : emitted.drop (s.counter + s.received.length) = [] :=
              List.drop_eq_nil_iff.mpr (Nat.le_of_not_lt hge)
            rw [hnil] at hdropc
            exact List.noConfusion hdropc
          have hpmem : p ∈ emitted := by
            have hpd : p ∈ emitted.drop (s.counter + s.received.length) := by
              rw [hdropc]
              exact List.mem_cons_self p rest
            exact List.mem_of_mem_drop hpd
          have hlenapp : (s.received ++ [p]).length = s.received.length + 1 := by simp
          have hd := drop_succ_of_drop_cons hdropc
          have hidx : s.counter + (s.received ++ [p]).length =
              s.counter + s.received.length + 1 := by
            rw [hlenapp]
            omega
          refine ⟨by rw [hidx]; exact hd.symm,
            by show s.counter + (s.received ++ [p]).length ≤ emitted.length
               rw [hlenapp]; omega,
            h3, ?_, h5, h6⟩
          intro q hq
          rcases List.mem_append.mp hq with hq | hq
          · exact h4 q hq
          · have hq2 : q = p := by simpa using hq
            exact hq2 ▸ hpmem
        · rw [if_neg hb] at hstep
          exact Option.noConfusion hstep
  | claim j =>
    cases bound with
    | none => simp [execStep] at hstep
    | some size =>
      cases hget : s.received[j]? with
      | none => simp [execStep, hget] at hstep
      | some p =>
        simp only [execStep, hget, Option.some_inj] at hstep
        subst hstep
        have hperm : s.received.Perm (p :: s.received.eraseIdx j) :=
          get_eraseIdx_perm j _ p hget
        have hlen : s.received.length = (s.received.eraseIdx j).length + 1 := by
          have := hperm.length_eq
          simpa [Nat.add_comm] using this
        have hpmem : p ∈ emitted :=
          h4 p (hperm.mem_iff.mpr (List.mem_cons_self p _))
        have hidx : s.counter + 1 + (s.received.eraseIdx j).length =
            s.counter + s.received.length := by omega
        refine ⟨by rw [hidx]; exact h1,
          by show s.counter + 1 + (s.received.eraseIdx j).length ≤ emitted.length; omega,
          ?_, ?_, ?_, h6⟩
        · have hmap : (s.inFlight ++ [(s.counter, p)]).map Prod.fst =
              s.inFlight.map Prod.fst ++ [s.counter] := by simp
          rw [hmap]
          exact keys_append_claim _ _ _ h3
        · intro q hq
          exact h4 q (List.eraseIdx_subset _ _ hq)
        · intro n q hq
          rcases List.mem_append.mp hq with hq | hq
          · exact h5 n q hq
          · have hq2 : n = s.counter ∧ q = p := by simpa using hq
            exact hq2.2 ▸ hpmem
  | fin j =>
    cases hget : s.inFlight[j]? with
    | none => simp [execStep, hget] at hstep
    | some np =>
      simp only [execStep, hget, Option.some_inj] at hstep
      subst hstep
      have hperm : s.inFlight.Perm (np :: s.inFlight.eraseIdx j) :=
        get_eraseIdx_perm j _ np hget
      have hmem : np ∈ s.inFlight := hperm.mem_iff.mpr (List.mem_cons_self np _)
      refine ⟨h1, h2, ?_, h4, ?_, ?_⟩
      · have hB : (s.inFlight.map Prod.fst).Perm
            (np.1 :: (s.inFlight.eraseIdx j).map Prod.fst) := by
          simpa using hperm.map Prod.fst
        have hstep1 : ((np.1 :: s.table.map Prod.fst) ++
            (s.inFlight.eraseIdx j).map Prod.fst).Perm
            (s.table.map Prod.fst ++ np.1 :: (s.inFlight.eraseIdx j).map Prod.fst) := by
          exact List.perm_middle.symm
        have hstep2 : (s.table.map Prod.fst ++
            np.1 :: (s.inFlight.eraseIdx j).map Prod.fst).Perm
            (s.table.map Prod.fst ++ s.inFlight.map Prod.fst) :=
          (hB.symm).append_left (s.table.map Prod.fst)
        exact (hstep1.trans hstep2).trans h3
      · intro n q hq
        exact h5 n q (List.eraseIdx_subset _ _ hq)
      · intro n r hr
        rcases List.mem_cons.mp hr with hr | hr
        · obtain ⟨hn, hrr⟩ := Prod.mk.injEq .. ▸ hr
          exact ⟨np.2, h5 np.1 np.2 (by simpa using hmem), hrr⟩
        · exact h6 n r hr

lemma fanOutStep_inv {ctx : Context} {emitted : List Pipeline}
    {e : ExecEvent} {s s' : ExecState}
    (hinv : ExecInv ctx emitted s) (hfan : FanOutInv ctx emitted s)
    (hstep : execStep ctx none e s = some s') :
    FanOutInv ctx emitted s' := by
  obtain ⟨h1, h2, h3, h4, h5, h6⟩ := hinv
  obtain ⟨f1, f2, f3⟩ := hfan
  cases e with
  | deq =>
    cases hrem : s.remaining with
    | nil => simp [execStep, hrem] at hstep
    | cons p rest =>
      simp only [execStep, hrem, Option.some_inj] at hstep
      subst hstep
      have hdropc : emitted.drop (s.counter + s.received.length) = p :: rest := h1 ▸ hrem
      have hd0 : emitted.drop s.counter = p :: rest := by
        simpa [f1] using hdropc
      have hget : emitted[s.counter]? = some p := by
        have := List.getElem?_drop emitted s.counter 0
        rw [hd0] at this
        simpa using this.symm
      refine ⟨f1, ?_, f3⟩
      intro n q hq
      rcases List.mem_append.mp hq with hq | hq
      · exact f2 n q hq
      · have hq2 : n = s.counter ∧ q = p := by simpa using hq
        rw [hq2.1, hq2.2]
        exact hget
  | recv => simp [execStep] at hstep
  | claim j => simp [execStep] at hstep
  | fin j =>
    cases hget : s.inFlight[j]? with
    | none => simp [execStep, hget] at hstep
    | some np =>
      simp only [execStep, hget, Option.some_inj] at hstep
      subst hstep
      have hperm : s.inFlight.Perm (np :: s.inFlight.eraseIdx j) :=
        get_eraseIdx_perm j _ np hget
      have hmem : np ∈ s.inFlight := hperm.mem_iff.mpr (List.mem_cons_self np _)
      refine ⟨f1, ?_, ?_⟩
      · intro n q hq
        exact f2 n q (List.eraseIdx_subset _ _ hq)
      · intro n r hr
        rcases List.mem_cons.mp hr with hr | hr
        · obtain ⟨hn, hrr⟩ := Prod.mk.injEq .. ▸ hr
          refine ⟨np.2, ?_, hrr⟩
          rw [hn]
          exact f2 np.1 np.2 (by simpa using hmem)
        · exact f3 n r hr

lemma execRun_inv {ctx : Context} {bound : Option Nat} {emitted : List Pipeline} :
    ∀ (sched : List ExecEvent) (s s' : ExecState),
      ExecInv ctx emitted s → execRun ctx bound sched s = some s' →
      ExecInv ctx emitted s'
  | [], s, s', hinv, hrun => by
      simp only [execRun, Option.some_inj] at hrun
      exact hrun ▸ hinv
  | e :: es, s, s', hinv, hrun => by
      cases hstep : execStep ctx bound e s with
      | none => simp [execRun, hstep] at hrun
      | some s2 =>
        simp only [execRun, hstep] at hrun
        exact execRun_inv es s2 s' (execStep_inv hinv hstep) hrun

lemma fanOutRun_inv {ctx : Context} {emitted : List Pipeline} :
    ∀ (sched : List ExecEvent) (s s' : ExecState),
      ExecInv ctx emitted s → FanOutInv ctx emitted s →
      execRun ctx none sched s = some s' →
      FanOutInv ctx emitted s'
  | [], s, s', _, hfan, hrun => by
      simp only [execRun, Option.some_inj] at hrun
      exact hrun ▸ hfan
  | e :: es, s, s', hinv, hfan, hrun => by
      cases hstep : execStep ctx none e s with
      | none => simp [execRun, hstep] at hrun
      | some s2 =>
        simp only [execRun, hstep] at hrun
        exact fanOutRun_inv es s2 s' (execStep_inv hinv hstep)
          (fanOutStep_inv hinv hfan hstep) hrun

lemma initState_inv {ctx : Context} {emitted : List Pipeline} :
    ExecInv ctx emitted (initState emitted) := by
  refine ⟨by simp [initState], by simp [initState], by simp [initState], ?_, ?_, ?_⟩
  · intro p hp
    simp [initState] at hp
  · intro n p hp
    simp [initState] at hp
  · intro n r hr
    simp [initState] at hr

lemma execRun_init_inv {ctx : Context} {bound : Option Nat} {emitted : List Pipeline}
    {sched : List ExecEvent} {s : ExecState}
    (hrun : execRun ctx bound sched (initState emitted) = some s) :
    ExecInv ctx emitted s :=
  execRun_inv sched (initState emitted) s initState_inv hrun

lemma fanOutRun_init_inv {ctx : Context} {emitted : List Pipeline}
    {sched : List ExecEvent} {s : ExecState}
    (hrun : execRun ctx none sched (initState emitted) = some s) :
    FanOutInv ctx emitted s := by
  refine fanOutRun_inv sched (initState emitted) s initState_inv ⟨rfl, ?_, ?_⟩ hrun
  · intro n p hp
    simp [initState] at hp
  · intro n r hr
    simp [initState] at hr

lemma quiesced_table {ctx : Context} {emitted : List Pipeline} {s : ExecState}
    (hinv : ExecInv ctx emitted s) (hrem : s.remaining = [])
    (hrecv : s.received = []) (hifl : s.inFlight = []) :
    s.counter = emitted.length ∧
    (s.table.map Prod.fst).Perm (List.range emitted.length) ∧
    s.table.length = emitted.length := by
  obtain ⟨h1, h2, h3, -, -, -⟩ := hinv
  rw [hrecv] at h1 h2
  simp only [List.length_nil, Nat.add_zero] at h1 h2
  have hdrop : emitted.drop s.counter = [] := by rw [← h1, hrem]
  have hle : emitted.length ≤ s.counter := List.drop_eq_nil_iff.mp hdrop
  have hceq : s.counter = emitted.length := Nat.le_antisymm h2 hle
  rw [hifl] at h3
  simp only [List.map_nil, List.append_nil] at h3
  refine ⟨hceq, hceq ▸ h3, ?_⟩
  have := h3.length_eq
  simpa [hceq] using this

/-! ## The part_011 generation of the result collector, used by the
worker-pool step of `pipelinetest/dummyrecorder.go`: here the handler and
the collection return a bare `error` and the step's own name is given to
`setResultErrorFromContext`.  Its `Result` had no `aborted` field; the
embedding keeps the shared `Result` record with `aborted` pinned to the
zero value `false`. -/

namespace v1

/-- `ParallelResultHandler` of the part_011 generation: map to `error`. -/
abbrev ParallelResultHandler := Context → (Nat → Option Result) → Option GoError

/-- `collectResults` of part_011: nil handler means nil error. -/
def collectResults (ctx : Context) (handler : Option ParallelResultHandler)
    (m : ResultTable) : Option GoError :=
  match handler with
  | none => none
  | some h => h ctx (tableView m)

/-- `newResult(name, err, canceled)` of that generation. -/
def newResult (stepName : String) (err : Option GoError) (canceled : Bool) : Result :=
  ⟨err, stepName, false, canceled⟩

/-- `newResultWithError(name, err)` of that generation. -/
def newResultWithError (stepName : String) (err : Option GoError) : Result :=
  ⟨err, stepName, false, false⟩

/-- `setResultErrorFromContext(ctx, name, err)` of part_011. -/
def setResultErrorFromContext (ctx : Context) (stepName : String) (err : Option GoError) : Result :=
  match ctx.err with
  | some cerr =>
    match err with
    | some e => newResult stepName (some (fmtErrorfWrapColl cerr e)) true
    | none => newResult stepName (some cerr) true
  | none => newResultWithError stepName err

end v1

/-- The action of the step built by `NewFanOutStep`: run the spawned tasks
to quiescence (`wg.Wait()` — the step yields no result until the machine
reaches a quiesced state), collect once, merge the context error.
`emitted` is the sequence the supplier fed the channel; `sched` the
interleaving the scheduler chose. -/
def NewFanOutStepRun (ctx : Context) (handler : Option ParallelResultHandler)
    (emitted : List Pipeline) (sched : List ExecEvent) : Option Result :=
  match execRun ctx none sched (initState emitted) with
  | none => none
  | some s =>
    if isQuiesced s then
      some (setResultErrorFromContext ctx (collectResults ctx handler s.table))
    else none

/-- The action of the step built by `NewWorkerPoolStep` (pool of `size`
workers running `poolWork`): same skeleton with busy workers bounded by
`size`, split receive/claim dequeuing, and the part_011 result
collector. -/
def NewWorkerPoolStepRun (ctx : Context) (stepName : String) (size : Nat)
    (handler : Option v1.ParallelResultHandler) (emitted : List Pipeline)
    (sched : List ExecEvent) : Option Result :=
  match execRun ctx (some size) sched (initState emitted) with
  | none => none
  | some s =>
    if isQuiesced s then
      some (v1.setResultErrorFromContext ctx stepName (v1.collectResults ctx handler s.table))
    else none

/-- A context whose cancellation signal has not fired. -/
def ctxNone : Context := ⟨none⟩

/-- Two trivial sub-pipelines, a fan-out schedule that reads both and
finishes them out of spawn order, and the machine's resulting final
state; used by the concrete witnesses. -/
def pipes2 : List Pipeline := [okPipe, okPipe]

def sched2 : List ExecEvent := [ExecEvent.deq, ExecEvent.deq, ExecEvent.fin 1, ExecEvent.fin 0]

def finalS2 : ExecState := ⟨[], 2, [], [], [(0, Result.zero), (1, Result.zero)]⟩

/-- C2: in every run of the executor machine (fan-out or pool bound), the
result-table indices are free of duplicates, and once the queue is
drained, every receive is claimed and no task is in flight, the table
holds exactly one record per supplied sub-pipeline: its key list is a
permutation of `0, ..., N-1`. -/
theorem exec_result_table_complete (ctx : Context) (bound : Option Nat)
    (emitted : List Pipeline) (sched : List ExecEvent) (s : ExecState)
    (hrun : execRun ctx bound sched (initState emitted) = some s) :
    (s.table.map Prod.fst).Nodup ∧
    (s.remaining = [] → s.received = [] → s.inFlight = [] →
      (s.table.map Prod.fst).Perm (List.range emitted.length) ∧
      s.table.length = emitted.length) := by
  have hinv := execRun_init_inv hrun
  constructor
  · have h3 := hinv.2.2.1
    have hnd : (s.table.map Prod.fst ++ s.inFlight.map Prod.fst).Nodup :=
      h3.nodup_iff.mpr (List.nodup_range s.counter)
    exact hnd.of_append_left
  · intro hrem hrecv hifl
    have := quiesced_table hinv hrem hrecv hifl
    exact ⟨this.2.1, this.2.2⟩

/-- Witness for C2 at a concrete two-pipeline run. -/
theorem exec_result_table_complete_witness :
    (finalS2.table.map Prod.fst).Nodup ∧
    (finalS2.table.map Prod.fst).Perm (List.range pipes2.length) := by
  have h := exec_result_table_complete ctxNone none pipes2 sched2 finalS2 rfl
  exact ⟨h.1, (h.2 rfl rfl rfl).1⟩

/-- C10: after quiescence the key set of the result table is the
contiguous zero-based range: the counter equals the number of dequeued
sub-pipelines and an index is present iff it is below the counter — no
gaps. -/
theorem exec_table_indices_contiguous (ctx : Context) (bound : Option Nat)
    (emitted : List Pipeline) (sched : List ExecEvent) (s : ExecState)
    (hrun : execRun ctx bound sched (initState emitted) = some s)
    (hrem : s.remaining = []) (hrecv : s.received = []) (hifl : s.inFlight = []) :
    s.counter = emitted.length ∧
    (∀ k, k ∈ s.table.map Prod.fst ↔ k < s.counter) := by
  have hinv := execRun_init_inv hrun
  have hq := quiesced_table hinv hrem hrecv hifl
  refine ⟨hq.1, ?_⟩
  intro k
  rw [hq.2.1.mem_iff, List.mem_range, hq.1]

/-- Witness for C10 at the concrete two-pipeline run. -/
theorem exec_table_indices_contiguous_witness :
    finalS2.counter = pipes2.length ∧
    (0 ∈ finalS2.table.map Prod.fst ↔ 0 < finalS2.counter) := by
  have h := exec_table_indices_contiguous ctxNone none pipes2 sched2 finalS2 rfl rfl rfl rfl
  exact ⟨h.1, h.2 0⟩

lemma fanOutRun_some {ctx : Context} {handler : Option ParallelResultHandler}
    {emitted : List Pipeline} {sched : List ExecEvent} {res : Result}
    (hres : NewFanOutStepRun ctx handler emitted sched = some res) :
    ∃ s, execRun ctx none sched (initState emitted) = some s ∧
      s.remaining = [] ∧ s.received = [] ∧ s.inFlight = [] ∧
      res = setResultErrorFromContext ctx (collectResults ctx handler s.table) := by
  cases hrun : execRun ctx none sched (initState emitted) with
  | none => simp [NewFanOutStepRun, hrun] at hres
  | some s =>
    simp only [NewFanOutStepRun, hrun] at hres
    by_cases hq : isQuiesced s = true
    · have hq2 : s.remaining = [] ∧ s.received = [] ∧ s.inFlight = [] := by
        simpa [isQuiesced, and_assoc] using hq
      simp only [hq, if_true, Option.some_inj] at hres
      exact ⟨s, rfl, hq2.1, hq2.2.1, hq2.2.2, hres.symm⟩
    · simp [hq] at hres

lemma poolRun_some {ctx : Context} {stepName : String} {size : Nat}
    {handler : Option v1.ParallelResultHandler}
    {emitted : List Pipeline} {sched : List ExecEvent} {res : Result}
    (hres : NewWorkerPoolStepRun ctx stepName size handler emitted sched = some res) :
    ∃ s, execRun ctx (some size) sched (initState emitted) = some s ∧
      s.remaining = [] ∧ s.received = [] ∧ s.inFlight = [] ∧
      res = v1.setResultErrorFromContext ctx stepName (v1.collectResults ctx handler s.table) := by
  cases hrun : execRun ctx (some size) sched (initState emitted) with
  | none => simp [NewWorkerPoolStepRun, hrun] at hres
  | some s =>
    simp only [NewWorkerPoolStepRun, hrun] at hres
    by_cases hq : isQuiesced s = true
    · have hq2 : s.remaining = [] ∧ s.received = [] ∧ s.inFlight = [] := by
        simpa [isQuiesced, and_assoc] using hq
      simp only [hq, if_true, Option.some_inj] at hres
      exact ⟨s, rfl, hq2.1, hq2.2.1, hq2.2.2, hres.symm⟩
    · simp [hq] at hres

/-- C4: both executor actions yield a result only from a quiesced machine
state: the queue is drained, no receive is pending, no spawned task is
still in flight, every dequeued sub-pipeline has stored its record (the
table is a full index→outcome mapping over `0, ..., N-1`), and the
returned value is the one application of the result collector to that
final table, merged with the context error. -/
theorem exec_quiescence_before_collection (ctx : Context) (stepName : String) (size : Nat)
    (hFan : Option ParallelResultHandler) (hPool : Option v1.ParallelResultHandler)
    (emitted : List Pipeline) (sched : List ExecEvent) :
    (∀ res, NewFanOutStepRun ctx hFan emitted sched = some res →
      ∃ s, execRun ctx none sched (initState emitted) = some s ∧
        s.remaining = [] ∧ s.received = [] ∧ s.inFlight = [] ∧
        s.table.length = emitted.length ∧
        (s.table.map Prod.fst).Perm (List.range emitted.length) ∧
        res = setResultErrorFromContext ctx (collectResults ctx hFan s.table)) ∧
    (∀ res, NewWorkerPoolStepRun ctx stepName size hPool emitted sched = some res →
      ∃ s, execRun ctx (some size) sched (initState emitted) = some s ∧
        s.remaining = [] ∧ s.received = [] ∧ s.inFlight = [] ∧
        s.table.length = emitted.length ∧
        (s.table.map Prod.fst).Perm (List.range emitted.length) ∧
        res = v1.setResultErrorFromContext ctx stepName (v1.collectResults ctx hPool s.table)) := by
  constructor
  · intro res hres
    obtain ⟨s, hrun, hrem, hrecv, hifl, hval⟩ := fanOutRun_some hres
    have hqt := quiesced_table (execRun_init_inv hrun) hrem hrecv hifl
    exact ⟨s, hrun, hrem, hrecv, hifl, hqt.2.2, hqt.2.1, hval⟩
  · intro res hres
    obtain ⟨s, hrun, hrem, hrecv, hifl, hval⟩ := poolRun_some hres
    have hqt := quiesced_table (execRun_init_inv hrun) hrem hrecv hifl
    exact ⟨s, hrun, hrem, hrecv, hifl, hqt.2.2, hqt.2.1, hval⟩

/-- Witness for C4 at the concrete two-pipeline fan-out run. -/
theorem exec_quiescence_before_collection_witness :
    finalS2.remaining = [] ∧ finalS2.received = [] ∧ finalS2.inFlight = [] ∧
    finalS2.table.length = pipes2.length := by
  obtain ⟨s, hs, h1, h2, h3, h4, -, -⟩ :=
    (exec_quiescence_before_collection ctxNone "pool" 2 none none pipes2 sched2).1
      Result.zero rfl
  have hse : s = finalS2 := by
    have h0 : execRun ctxNone none sched2 (initState pipes2) = some finalS2 := rfl
    rw [hs] at h0
    exact Option.some_inj.mp h0
  exact ⟨hse ▸ h1, hse ▸ h2, hse ▸ h3, hse ▸ h4⟩

/-- A `Step` as the executor constructors build it. Its action is modelled
separately by `NewFanOutStepRun` / `NewWorkerPoolStepRun`. -/
structure Step where
  Name : String
  deriving DecidableEq

/-- `NewWorkerPoolStep` of `pipelinetest/dummyrecorder.go`:
`panic("pool size cannot be lower than 1")` when `size < 1` — modelled as
`Except.error` — before anything else happens; otherwise the step is
built. The supplier and the handler are untouched at construction. -/
def NewWorkerPoolStep (stepName : String) (size : Int) (pipelineSupplier : Supplier)
    (handler : Option v1.ParallelResultHandler) : Except String Step :=
  if size < 1 then Except.error "pool size cannot be lower than 1"
  else Except.ok ⟨stepName⟩

/-- C5: constructing a worker-pool step with `size < 1` (zero or negative)
aborts at construction with the panic message, before any supplier or
task could run; with `size ≥ 1` construction succeeds. -/
theorem newWorkerPoolStep_size_check (stepName : String) (size : Int)
    (pipelineSupplier : Supplier) (handler : Option v1.ParallelResultHandler) :
    (size < 1 → NewWorkerPoolStep stepName size pipelineSupplier handler =
      Except.error "pool size cannot be lower than 1") ∧
    (1 ≤ size → NewWorkerPoolStep stepName size pipelineSupplier handler =
      Except.ok ⟨stepName⟩) := by
  constructor
  · intro h
    simp [NewWorkerPoolStep, h]
  · intro h
    simp [NewWorkerPoolStep, not_lt.mpr h]

/-- Witness for C5 at sizes 0 and 2. -/
theorem newWorkerPoolStep_size_check_witness :
    NewWorkerPoolStep "pool" 0 (SupplierFromSlice []) none =
      Except.error "pool size cannot be lower than 1" ∧
    NewWorkerPoolStep "pool" 2 (SupplierFromSlice []) none = Except.ok ⟨"pool"⟩ :=
  ⟨(newWorkerPoolStep_size_check "pool" 0 (SupplierFromSlice []) none).1 (by decide),
   (newWorkerPoolStep_size_check "pool" 2 (SupplierFromSlice []) none).2 (by decide)⟩

lemma errorsIs_self (e : GoError) : errorsIs e e = true := by
  cases e <;> simp [errorsIs]

lemma fmtErrorf_ne_coll (cerr rerr : GoError) : fmtErrorfWrapColl cerr rerr ≠ rerr := by
  intro h
  have hm : (fmtErrorfWrapColl cerr rerr).message = rerr.message := by rw [h]
  simp only [fmtErrorfWrapColl, GoError.message] at hm
  have hlen := congrArg String.length hm
  have hsep : (", collection error: " : String).length = 20 := rfl
  simp only [String.length_append, hsep] at hlen
  omega

/-- C9: whenever the signal has fired at return time, the returned
`Result` has its canceled flag set; when a collection error is also
present, the composite error satisfies `errors.Is` for the context's
error (it is wrapped via `%w`), while the collection error — embedded via
`%v` as text only — is not reachable by unwrapping (provided it was not
already in the context error's own chain). -/
theorem setResultErrorFromContext_unwrap (ctx : Context) (res : Result)
    (cerr : GoError) (hc : ctx.err = some cerr) :
    (setResultErrorFromContext ctx res).canceled = true ∧
    (∀ rerr, res.err = some rerr →
      (setResultErrorFromContext ctx res).err = some (fmtErrorfWrapColl cerr rerr) ∧
      errorsIs (fmtErrorfWrapColl cerr rerr) cerr = true ∧
      (errorsIs cerr rerr = false →
        errorsIs (fmtErrorfWrapColl cerr rerr) rerr = false)) := by
  constructor
  · cases hr : res.err with
    | none => simp [setResultErrorFromContext, hc, hr, NewResult]
    | some rerr => simp [setResultErrorFromContext, hc, hr, NewResult]
  · intro rerr hr
    refine ⟨by simp [setResultErrorFromContext, hc, hr, NewResult], ?_, ?_⟩
    · simp [fmtErrorfWrapColl, errorsIs, errorsIs_self]
    · intro hnot
      have hne : fmtErrorfWrapColl cerr rerr ≠ rerr := fmtErrorf_ne_coll cerr rerr
      simp only [fmtErrorfWrapColl, errorsIs] at *
      rw [hnot]
      simp only [Bool.or_false]
      exact beq_eq_false_iff_ne.mpr (by simpa [fmtErrorfWrapColl] using hne)

/-- Witness for C9: a concrete canceled context with a concrete collection
error; the collection error is not reachable by unwrapping. -/
theorem setResultErrorFromContext_unwrap_witness :
    (setResultErrorFromContext ⟨some (GoError.leaf "context canceled")⟩
      ⟨some (GoError.leaf "boom"), "n", false, false⟩).canceled = true ∧
    errorsIs (fmtErrorfWrapColl (GoError.leaf "context canceled") (GoError.leaf "boom"))
      (GoError.leaf "boom") = false := by
  have h := setResultErrorFromContext_unwrap ⟨some (GoError.leaf "context canceled")⟩
    ⟨some (GoError.leaf "boom"), "n", false, false⟩ (GoError.leaf "context canceled") rfl
  exact ⟨h.1, (h.2 (GoError.leaf "boom") rfl).2.2 (by decide)⟩

/-- The result a failing sub-pipeline returns in the concrete
(counter)examples. -/
def failResult : Result := ⟨some (GoError.leaf "task failed"), "sub", false, false⟩

/-- A sub-pipeline whose run fails, used in concrete (counter)examples. -/
def failPipe : Pipeline := ⟨fun _ => failResult⟩

/-- A context whose cancellation signal has fired. -/
def ctxCanceled : Context := ⟨some (GoError.leaf "context canceled")⟩

/-- Counterexample to C8 as stated: a fan-out invocation whose reduction
function returns the zero `Result` (nil error) on every input, over one
task that stored a failing record, but under a fired cancellation signal:
the final outcome's error is the cancellation error, not nil. -/
theorem fanout_nil_handler_canceled_counterexample :
    NewFanOutStepRun ctxCanceled (some (fun _ _ => Result.zero)) [failPipe]
      [ExecEvent.deq, ExecEvent.fin 0] =
      some (NewResult "" (some (GoError.leaf "context canceled")) false true) ∧
    execRun ctxCanceled none [ExecEvent.deq, ExecEvent.fin 0] (initState [failPipe]) =
      some ⟨[], 1, [], [], [(0, failResult)]⟩ ∧
    (NewResult "" (some (GoError.leaf "context canceled")) false true).err ≠ none := by
  refine ⟨rfl, rfl, ?_⟩
  simp [NewResult]

/-- C8 (amended): if the reduction function returns a nil error on every
input and the cancellation signal did not fire, the executor's outcome
carries no error even when individual tasks stored failing records; when
the signal has fired the outcome is the cancellation error instead (see
the C1 composition). Both executor variants are covered. -/
theorem exec_nil_returning_handler (ctx : Context) (stepName : String) (size : Nat)
    (hFan : ParallelResultHandler) (hPool : v1.ParallelResultHandler)
    (emitted : List Pipeline) (sched : List ExecEvent)
    (hctx : ctx.err = none)
    (hFanNil : ∀ c m, (hFan c m).err = none)
    (hPoolNil : ∀ c m, hPool c m = none) :
    (∀ res, NewFanOutStepRun ctx (some hFan) emitted sched = some res → res.err = none) ∧
    (∀ res, NewWorkerPoolStepRun ctx stepName size (some hPool) emitted sched = some res →
      res.err = none) := by
  constructor
  · intro res hres
    obtain ⟨s, -, -, -, -, hval⟩ := fanOutRun_some hres
    have hmerge : setResultErrorFromContext ctx (collectResults ctx (some hFan) s.table) =
        collectResults ctx (some hFan) s.table := by
      simp [setResultErrorFromContext, hctx]
    rw [hval, hmerge]
    exact hFanNil ctx (tableView s.table)
  · intro res hres
    obtain ⟨s, -, -, -, -, hval⟩ := poolRun_some hres
    rw [hval]
    simp only [v1.setResultErrorFromContext, hctx, v1.collectResults, v1.newResultWithError]
    exact hPoolNil ctx (tableView s.table)

/-- Witness for C8 (amended): concrete nil-returning handlers over a
failing task with an unfired signal; both variants return no error. -/
theorem exec_nil_returning_handler_witness :
    Result.zero.err = none ∧ (v1.newResultWithError "pool" none).err = none := by
  have hf := exec_nil_returning_handler ctxNone "pool" 1 (fun _ _ => Result.zero)
    (fun _ _ => none) [failPipe] [ExecEvent.deq, ExecEvent.fin 0] rfl
    (fun _ _ => rfl) (fun _ _ => rfl)
  have hp := exec_nil_returning_handler ctxNone "pool" 1 (fun _ _ => Result.zero)
    (fun _ _ => none) [failPipe] [ExecEvent.recv, ExecEvent.claim 0, ExecEvent.fin 0] rfl
    (fun _ _ => rfl) (fun _ _ => rfl)
  exact ⟨hf.1 Result.zero rfl, hp.2 (v1.newResultWithError "pool" none) rfl⟩

/-- A size-2 pool schedule in which both workers receive in FIFO order
but the second receiver claims its index first, and the machine's final
state for it over `[okPipe, failPipe]`. -/
def schedPool : List ExecEvent :=
  [ExecEvent.recv, ExecEvent.recv, ExecEvent.claim 1, ExecEvent.claim 0,
    ExecEvent.fin 0, ExecEvent.fin 0]

def sPool : ExecState := ⟨[], 2, [], [], [(1, Result.zero), (0, failResult)]⟩

/-- Counterexample to C7 as stated: in `poolWork` the channel receive and
the `atomic.AddUint64` claim are separate unsynchronized operations, so
pool index order need not be dequeue order. In a size-2 pool over
`[okPipe, failPipe]`, both workers receive in FIFO order (`okPipe`
first), but the worker holding `failPipe` claims first: record 0 holds
the run of `failPipe` — the second-dequeued sub-pipeline — while the
first-dequeued `okPipe` runs to `Result.zero ≠ failResult`. -/
theorem pool_index_vs_dequeue_counterexample :
    execRun ctxNone (some 2) schedPool (initState [okPipe, failPipe]) = some sPool ∧
    lookupTable sPool.table 0 = some failResult ∧
    [okPipe, failPipe][0]? = some okPipe ∧
    okPipe.runWithContext ctxNone = Result.zero ∧
    failResult ≠ Result.zero := by
  refine ⟨rfl, rfl, rfl, rfl, ?_⟩
  decide

/-- C7 (amended): index assignment per variant. The fan-out loop is the
single reader and binds `n := i; i++` per read, so index `n` is tied to
the `n`-th sub-pipeline read from the queue, for in-flight tasks and
stored records alike. A pool worker claims its index from the shared
atomically incremented counter after its receive: the claimed indices
are exactly `0, ..., counter-1`, each exactly once, and every record is
the run of a supplied sub-pipeline — but because receive and claim are
separate steps, pool index order may diverge from dequeue order. -/
theorem exec_index_assignment_policy (ctx : Context) (emitted : List Pipeline)
    (sched : List ExecEvent) :
    (∀ s, execRun ctx none sched (initState emitted) = some s →
      (∀ n p, (n, p) ∈ s.inFlight → emitted[n]? = some p) ∧
      (∀ n r, (n, r) ∈ s.table →
        ∃ p, emitted[n]? = some p ∧ r = p.runWithContext ctx)) ∧
    (∀ size s, execRun ctx (some size) sched (initState emitted) = some s →
      (s.table.map Prod.fst ++ s.inFlight.map Prod.fst).Perm (List.range s.counter) ∧
      (∀ n r, (n, r) ∈ s.table → ∃ p, p ∈ emitted ∧ r = p.runWithContext ctx)) := by
  constructor
  · intro s hrun
    have hfan := fanOutRun_init_inv hrun
    exact ⟨hfan.2.1, hfan.2.2⟩
  · intro size s hrun
    have hinv := execRun_init_inv hrun
    exact ⟨hinv.2.2.1, hinv.2.2.2.2.2⟩

/-- Witness for C7 (amended): the fan-out half at the concrete
two-pipeline run (record 0 is the run of the first supplied pipeline),
and the pool half at the index-inverting run (indices still exactly
`0..1`). -/
theorem exec_index_assignment_policy_witness :
    pipes2[0]? = some okPipe ∧ Result.zero = okPipe.runWithContext ctxNone ∧
    (sPool.table.map Prod.fst ++ sPool.inFlight.map Prod.fst).Perm
      (List.range sPool.counter) := by
  obtain ⟨p, hp, hr⟩ := ((exec_index_assignment_policy ctxNone pipes2 sched2).1
    finalS2 rfl).2 0 Result.zero (by decide)
  have hpe : p = okPipe := by
    have h0 : pipes2[0]? = some okPipe := rfl
    rw [hp] at h0
    exact Option.some_inj.mp h0
  refine ⟨hpe ▸ hp, hpe ▸ hr, ?_⟩
  exact ((exec_index_assignment_policy ctxNone [okPipe, failPipe] schedPool).2
    2 sPool rfl).1

end CP
